import Mathlib

/-!
A shallow embedding of the news caching and gap-filling layer of the
`ai-stock-analysis` repository (files `src/utils/news_db_manager.py` and
`src/api/news_api.py`), together with proofs checking the natural-language
specification of that layer against the code.

Modelling conventions:
* Calendar dates are modelled as natural numbers (day ordinals) with day `0`
  a Monday, so that Python's `date.weekday()` (Monday = 0 .. Sunday = 6)
  becomes `d % 7`, and `date + timedelta(days = 1)` becomes `d + 1`.
* A symbol's JSON table (a dict from `"YYYY-MM-DD"` strings to day-record
  objects) is modelled as an association list whose keys are `Option Nat`:
  `some d` is a well-formed date key for day `d`, `none` is a key whose
  string does not parse as a date (`strptime` raises `ValueError`).
  Python dict assignment `symbol_data[date_str] = news_data` keeps keys
  unique, which the model realises by removing any previous entry for the
  same key; entry order is irrelevant to every read the code performs
  (lookups by key and set-based scans).
* Exceptions caught by the code's `try/except` blocks are modelled by
  explicit boolean "an exception was raised" parameters on the functions
  that contain such a block.
* Python truthiness on the stored day-record fields is modelled by `Bool`
  fields where `false` stands for "key absent or value falsy": the code
  only ever writes the values `True` (or omits the key).
-/

/-- Python's `date.weekday()` under the day-ordinal model: 0-4 are
Monday-Friday, 5-6 are Saturday-Sunday. -/
def weekday (d : Nat) : Nat := d % 7

/-- Number of days in the inclusive range `[s, e]`; `(end - start).days + 1`
in the Python code (empty when `e < s`). -/
def numDays (s e : Nat) : Nat := e + 1 - s

/-- All dates of the inclusive range `[s, e]` in ascending order: the set
built by the `while current_date <= end_date` loops of
`news_db_manager.get_missing_dates` and `news_api._get_news_from_db`. -/
def allDates (s e : Nat) : List Nat := List.range' s (numDays s e)

/-- One news article, as stored in the per-day `articles` arrays.
`publishedAt` keeps only the date portion of the timestamp (the part before
`"T"`, which is all the code ever reads); `none` models an article whose
`publishedAt` field is missing or empty. -/
structure Article where
  title : String
  description : String
  url : String
  publishedAt : Option Nat
  sourceName : String
deriving DecidableEq, Repr

/-- One day-record of a symbol's JSON table (the dicts written by
`news_api.get_company_news` with fields `date`, `articles`,
`total_articles`, optional `is_weekend`, optional `no_news`). -/
structure DayRecord where
  date : Nat
  articles : List Article
  total_articles : Nat
  is_weekend : Bool
  no_news : Bool
deriving DecidableEq, Repr

/-- A symbol's stored table: association list from date keys (`some d` well
formed, `none` malformed) to day-records. -/
abbrev SymbolData := List (Option Nat × DayRecord)

/-- The configuration values consumed by the core (see `config/config.py`
and §6 of the spec). -/
structure Config where
  news_api_refresh_no_news : Bool
  news_api_refresh_articles : Bool
  news_api_language : String
  news_api_sort_by : String
  news_api_page_size : Nat
  news_api_query_suffix : String
  max_articles_per_day : Option Int
deriving DecidableEq, Repr

/-- The single remote query issued via `newsapi.get_everything` in
`news_api.get_company_news` (its keyword arguments). -/
structure ApiRequest where
  q : String
  from_param : Nat
  to_param : Nat
  language : String
  sort_by : String
  page_size : Nat
deriving DecidableEq, Repr

/-- `NewsDBManager.get_news`: the record stored under the (well-formed) key
for date `d`, if any. -/
def lookupDate (db : SymbolData) (d : Nat) : Option DayRecord :=
  (db.find? fun en => en.1 == some d).map Prod.snd

/-- `NewsDBManager.save_news`: store `rec` under the key for date `d`,
overwriting any previous entry for that key (dict assignment). -/
def save_news (db : SymbolData) (d : Nat) (rec : DayRecord) : SymbolData :=
  (db.filter fun en => !(en.1 == some d)) ++ [(some d, rec)]

/-- `NewsDBManager._load_symbol_data` (lines 59-66): a stored table is
returned as is; a read/parse failure (`except` branch) degrades to the
empty table. `stored = none` models a file that does not exist. -/
def load_symbol_data_run (exc : Bool) (stored : Option SymbolData) : SymbolData :=
  if exc then [] else stored.getD []

/-- The condition of `get_missing_dates` lines 186-190 under which a stored
record makes its date count as already covered: it has at least one
article, or is a weekend record, or is a `no_news` record while the
`news_api_refresh_no_news` flag is off. -/
def validRecord (rn : Bool) (r : DayRecord) : Bool :=
  !r.articles.isEmpty || r.is_weekend || (r.no_news && !rn)

/-- Whether some stored entry has the well-formed key for date `d`, lies in
`[s, e]`, and satisfies `validRecord` — i.e. `d` lands in the
`existing_dates` set of `get_missing_dates`. -/
def coveredBy (rn : Bool) (s e : Nat) (db : SymbolData) (d : Nat) : Bool :=
  db.any fun en =>
    en.1 == some d && (decide (s ≤ d) && decide (d ≤ e)) && validRecord rn en.2

/-- `NewsDBManager.get_missing_dates` (lines 162-203, the non-exceptional
path): the ascending list of dates of `[s, e]` not covered by any stored
record. The Python code builds the set difference `all_dates -
existing_dates` and sorts it ascending; filtering the ascending range by
non-membership in `existing_dates` produces exactly that sorted list.
Malformed keys (`none`) never contribute to `existing_dates` (the
`except ValueError: continue`). -/
def get_missing_dates (rn : Bool) (db : SymbolData) (s e : Nat) : List Nat :=
  (allDates s e).filter fun d => !coveredBy rn s e db d

/-- `NewsDBManager.get_missing_dates` with its surrounding `try/except`
(lines 204-208): an exception anywhere in the computation makes the method
return the empty list. -/
def get_missing_dates_run (exc rn : Bool) (db : SymbolData) (s e : Nat) : List Nat :=
  if exc then [] else get_missing_dates rn db s e

/-- The weekend day-record written by `get_company_news` lines 131-139. -/
def weekendRecord (d : Nat) : DayRecord :=
  { date := d, articles := [], total_articles := 0, is_weekend := true, no_news := false }

/-- The loop of `get_company_news` lines 131-139: save a weekend record for
each missing weekend date and bump `days_without_news` once per date. -/
def processWeekends (acc : SymbolData × Int) (l : List Nat) : SymbolData × Int :=
  l.foldl (fun acc d => (save_news acc.1 d (weekendRecord d), acc.2 + 1)) acc

/-- Helper of `_organize_articles_by_date`: append `a` to the group of date
`d`, creating the group (at the end, dict insertion order) if absent. -/
def addToGroup (acc : List (Nat × List Article)) (d : Nat) (a : Article) :
    List (Nat × List Article) :=
  match acc with
  | [] => [(d, [a])]
  | (k, l) :: rest =>
    if k = d then (k, l ++ [a]) :: rest else (k, l) :: addToGroup rest d a

/-- `NewsAPI._organize_articles_by_date`: group the response's articles by
the date portion of their publish timestamp, skipping articles with an
empty `publishedAt`; groups appear in first-appearance order and each group
keeps the response order. -/
def organize_articles_by_date (arts : List Article) : List (Nat × List Article) :=
  arts.foldl
    (fun acc a =>
      match a.publishedAt with
      | none => acc
      | some d => addToGroup acc d a)
    []

/-- The dates of the grouped remote results (`articles_by_date.keys()`). -/
def groupedDates (arts : List Article) : List Nat :=
  (organize_articles_by_date arts).map Prod.fst

/-- Python's `str.strip()`: remove leading and trailing whitespace. -/
def pyStrip (s : String) : String :=
  String.mk (((s.toList.dropWhile Char.isWhitespace).reverse.dropWhile
    Char.isWhitespace).reverse)

/-- The search text built at `news_api.py` lines 172-174:
`f"{symbol.replace('^','')}{' OR ' + suffix if suffix else ''}".strip()`.
`symbol.replace("^", "")` removes every occurrence of the character `'^'`,
which on strings is exactly a character filter. -/
def buildQuery (symbol suffix : String) : String :=
  let base_query := String.mk (symbol.toList.filter fun c => c ≠ '^')
  pyStrip (base_query ++ (if suffix = "" then "" else " OR " ++ suffix))

/-- Python's `min` over a (nonempty) list of dates; `0` on `[]`, which the
code never evaluates. -/
def pyMin : List Nat → Nat
  | [] => 0
  | d :: ds => ds.foldl min d

/-- Python's `max` over a (nonempty) list of dates; `0` on `[]`, which the
code never evaluates. -/
def pyMax : List Nat → Nat
  | [] => 0
  | d :: ds => ds.foldl max d

/-- The missing-date list used by `get_company_news` lines 91-102: the full
range when `news_api_refresh_articles` is set, otherwise the gap analyzer's
answer (with its internal `try/except` modelled by `gapExc`). -/
def fetchMissing (cfg : Config) (gapExc : Bool) (db : SymbolData) (s e : Nat) : List Nat :=
  if cfg.news_api_refresh_articles then allDates s e
  else get_missing_dates_run gapExc cfg.news_api_refresh_no_news db s e

/-- The per-day truncation of `_get_news_from_db` lines 316-323: the
articles list capped at `max_articles_per_day` when that value is a
positive integer, unlimited otherwise. -/
def dayArticles (cap : Option Int) (r : DayRecord) : List Article :=
  match cap with
  | some n => if 0 < n then r.articles.take n.toNat else r.articles
  | none => r.articles

/-- The contribution of one date to `_get_news_from_db`'s output: nothing
when no record is stored or the record is a weekend record, the (possibly
capped) articles otherwise. -/
def dayContribution (cap : Option Int) (db : SymbolData) (d : Nat) : List Article :=
  match lookupDate db d with
  | none => []
  | some r => if r.is_weekend then [] else dayArticles cap r

/-- `NewsAPI._get_news_from_db` (lines 282-331): walk the range ascending
and append each date's contribution. -/
def get_news_from_db (cap : Option Int) (db : SymbolData) (s e : Nat) : List Article :=
  (allDates s e).foldl (fun acc d => acc ++ dayContribution cap db d) []

/-- The observable outcome of one `NewsAPI.get_company_news` call: the
returned article list, the symbol table after all saves, the three
statistics counters, and the remote query issued (if any). -/
structure FetchResult where
  articles : List Article
  db : SymbolData
  days_from_db : Int
  days_from_api : Int
  days_without_news : Int
  request : Option ApiRequest
deriving DecidableEq, Repr

/-- The weekday part of the partition of lines 119-128 (`date.weekday() <
5`), expressed as a filter; the single-pass loop appends each date to
exactly one of the two lists in order, which is what two filters produce. -/
def weekdayMissingOf (l : List Nat) : List Nat :=
  l.filter fun d => decide (weekday d < 5)

/-- The weekend part of the partition of lines 119-128. -/
def weekendMissingOf (l : List Nat) : List Nat :=
  l.filter fun d => !decide (weekday d < 5)

/-- The day-record built from one grouped result date (lines 214-219). -/
def groupRecord (p : Nat × List Article) : DayRecord :=
  { date := p.1, articles := p.2, total_articles := p.2.length,
    is_weekend := false, no_news := false }

/-- The empty day-record written for a missing weekday with no grouped
results (lines 227-235): `no_news` is set exactly when the date is more
than 7 days before today. -/
def leftoverRecord (today d : Nat) : DayRecord :=
  { date := d, articles := [], total_articles := 0, is_weekend := false,
    no_news := decide (7 < today - d) }

/-- `days_from_api` as computed at lines 199-206: the size of the
intersection of the grouped result dates with the missing weekdays (both
are duplicate-free, so filtering the keys does count the set
intersection). -/
def apiDaysCount (wm : List Nat) (response : List Article) : Nat :=
  ((groupedDates response).filter fun d => decide (d ∈ wm)).length

/-- The save loop of lines 211-221: store a `groupRecord` for every grouped
result date. -/
def fetchGroupDb (db : SymbolData) (response : List Article) : SymbolData :=
  (organize_articles_by_date response).foldl
    (fun db p => save_news db p.1 (groupRecord p)) db

/-- The save loop of lines 223-237: store a `leftoverRecord` for every
missing weekday that is not among the grouped result dates. -/
def fetchLeftoverDb (db : SymbolData) (today : Nat) (wm : List Nat)
    (response : List Article) : SymbolData :=
  wm.foldl
    (fun db d =>
      if decide (d ∈ groupedDates response) then db
      else save_news db d (leftoverRecord today d)) db

/-- `NewsAPI.get_company_news` (lines 72-245, the non-exceptional path).
`today` is `datetime.now().date()`, `response` the article list the remote
`get_everything` call returns, `gapExc` whether an exception is raised
inside `get_missing_dates`. -/
def get_company_news (cfg : Config) (gapExc : Bool) (db0 : SymbolData)
    (symbol : String) (today days : Nat) (response : List Article) : FetchResult :=
  let end_date := today
  let start_date := today - days
  let missing_dates := fetchMissing cfg gapExc db0 start_date end_date
  let total_days := numDays start_date end_date
  let days_from_db : Int := (total_days : Int) - missing_dates.length
  if missing_dates.isEmpty then
    { articles := get_news_from_db cfg.max_articles_per_day db0 start_date end_date,
      db := db0, days_from_db := days_from_db, days_from_api := 0,
      days_without_news := 0, request := none }
  else
    let weekday_missing_dates := weekdayMissingOf missing_dates
    let wk := processWeekends (db0, 0) (weekendMissingOf missing_dates)
    if weekday_missing_dates.isEmpty then
      { articles := get_news_from_db cfg.max_articles_per_day wk.1 start_date end_date,
        db := wk.1, days_from_db := days_from_db, days_from_api := 0,
        days_without_news := wk.2, request := none }
    else
      let req : ApiRequest :=
        { q := buildQuery symbol cfg.news_api_query_suffix,
          from_param := pyMin weekday_missing_dates,
          to_param := pyMax weekday_missing_dates,
          language := cfg.news_api_language, sort_by := cfg.news_api_sort_by,
          page_size := cfg.news_api_page_size }
      let days_from_api : Int := (apiDaysCount weekday_missing_dates response : Int)
      let dwn : Int := wk.2 + ((weekday_missing_dates.length : Int) - days_from_api)
      let db3 := fetchLeftoverDb (fetchGroupDb wk.1 response) today
        weekday_missing_dates response
      { articles := get_news_from_db cfg.max_articles_per_day db3 start_date end_date,
        db := db3, days_from_db := days_from_db, days_from_api := days_from_api,
        days_without_news := if dwn < 0 then 0 else dwn, request := some req }

/-- `NewsAPI.get_company_news` with its outermost `try/except` (lines
247-251): any exception raised during the whole fetch makes the call return
the empty list. -/
def get_company_news_run (exc : Bool) (cfg : Config) (gapExc : Bool) (db0 : SymbolData)
    (symbol : String) (today days : Nat) (response : List Article) : List Article :=
  if exc then []
  else (get_company_news cfg gapExc db0 symbol today days response).articles

/-! ### Facts about the date range -/

theorem mem_allDates {s e d : Nat} : d ∈ allDates s e ↔ s ≤ d ∧ d ≤ e := by
  unfold allDates numDays
  rw [List.mem_range']
  constructor
  · rintro ⟨i, hi, rfl⟩; omega
  · rintro ⟨h1, h2⟩; exact ⟨d - s, by omega, by omega⟩

theorem allDates_sorted (s e : Nat) : (allDates s e).Sorted (· < ·) :=
  List.pairwise_lt_range' s (numDays s e)

theorem allDates_nodup (s e : Nat) : (allDates s e).Nodup :=
  (allDates_sorted s e).imp Nat.ne_of_lt

theorem length_allDates (s e : Nat) : (allDates s e).length = numDays s e :=
  List.length_range' s 1 (numDays s e)

/-! ### Store lemmas: `save_news` against `lookupDate` -/

theorem find?_filter_of_imp {α} (p q : α → Bool) (h : ∀ x, p x = true → q x = true) :
    ∀ l : List α, (l.filter q).find? p = l.find? p := by
  intro l
  induction l with
  | nil => rfl
  | cons x xs ih =>
    by_cases hq : q x = true
    · rw [List.filter_cons_of_pos hq]
      by_cases hp : p x = true
      · rw [List.find?_cons_of_pos _ hp, List.find?_cons_of_pos _ hp]
      · rw [List.find?_cons_of_neg _ (by simp [hp]), List.find?_cons_of_neg _ (by simp [hp]), ih]
    · have hp : ¬p x = true := fun hc => hq (h x hc)
      rw [List.filter_cons_of_neg (by simpa using hq), ih, List.find?_cons_of_neg _ (by simp [hp])]

theorem lookupDate_save_self (db : SymbolData) (d : Nat) (rec : DayRecord) :
    lookupDate (save_news db d rec) d = some rec := by
  unfold lookupDate save_news
  rw [List.find?_append]
  have h1 : (db.filter fun en => !(en.1 == some d)).find? (fun en => en.1 == some d) = none := by
    rw [List.find?_eq_none]
    intro x hx
    have := (List.mem_filter.mp hx).2
    simp_all
  rw [h1]
  simp [List.find?]

theorem lookupDate_save_ne (db : SymbolData) {d k : Nat} (h : d ≠ k) (rec : DayRecord) :
    lookupDate (save_news db k rec) d = lookupDate db d := by
  unfold lookupDate save_news
  rw [List.find?_append]
  have h2 : List.find? (fun en => en.1 == some d) [(some k, rec)] = none := by
    have hkd : (k == d) = false := beq_eq_false_iff_ne.mpr (Ne.symm h)
    simp [List.find?, hkd]
  have h3 : (db.filter fun en => !(en.1 == some k)).find? (fun en => en.1 == some d)
      = db.find? (fun en => en.1 == some d) := by
    refine find?_filter_of_imp _ _ (fun x hx => ?_) db
    have : x.1 = some d := by simpa using hx
    simp [this, h]
  rw [h2, h3, Option.or_none]

theorem lookupDate_save_cases {db : SymbolData} {k : Nat} {r : DayRecord} {d : Nat}
    {rec : DayRecord} (h : lookupDate (save_news db k r) d = some rec) :
    lookupDate db d = some rec ∨ rec = r := by
  by_cases hk : d = k
  · subst hk
    rw [lookupDate_save_self] at h
    exact Or.inr (Option.some_injective _ h).symm
  · rw [lookupDate_save_ne db hk] at h
    exact Or.inl h

/-! ### Characterisation of `coveredBy` -/

theorem coveredBy_iff {rn : Bool} {s e : Nat} {db : SymbolData} {d : Nat} :
    coveredBy rn s e db d = true ↔
      s ≤ d ∧ d ≤ e ∧ ∃ en ∈ db, en.1 = some d ∧ validRecord rn en.2 = true := by
  unfold coveredBy
  rw [List.any_eq_true]
  constructor
  · rintro ⟨en, hmem, hc⟩
    simp only [Bool.and_eq_true, beq_iff_eq, decide_eq_true_eq] at hc
    exact ⟨hc.1.2.1, hc.1.2.2, en, hmem, hc.1.1, hc.2⟩
  · rintro ⟨h1, h2, en, hmem, hk, hv⟩
    exact ⟨en, hmem, by simp [hk, h1, h2, hv]⟩

theorem coveredBy_save_self {rn : Bool} {s e : Nat} (db : SymbolData) {k : Nat}
    {rec : DayRecord} (h1 : s ≤ k) (h2 : k ≤ e) (hv : validRecord rn rec = true) :
    coveredBy rn s e (save_news db k rec) k = true := by
  refine coveredBy_iff.mpr ⟨h1, h2, (some k, rec), ?_, rfl, hv⟩
  exact List.mem_append_right _ (List.mem_singleton.mpr rfl)

theorem coveredBy_save_of_covered {rn : Bool} {s e : Nat} {db : SymbolData} {d k : Nat}
    {rec : DayRecord} (hv : validRecord rn rec = true)
    (hcov : coveredBy rn s e db d = true) :
    coveredBy rn s e (save_news db k rec) d = true := by
  obtain ⟨h1, h2, en, hmem, hk, hen⟩ := coveredBy_iff.mp hcov
  by_cases hdk : d = k
  · subst hdk; exact coveredBy_save_self db h1 h2 hv
  · refine coveredBy_iff.mpr ⟨h1, h2, en, ?_, hk, hen⟩
    refine List.mem_append_left _ (List.mem_filter.mpr ⟨hmem, ?_⟩)
    simp [hk, hdk]

theorem coveredBy_of_not_missing {rn : Bool} {db : SymbolData} {s e d : Nat}
    (hd : d ∈ allDates s e) (h : d ∉ get_missing_dates rn db s e) :
    coveredBy rn s e db d = true := by
  unfold get_missing_dates at h
  by_contra hc
  exact h (List.mem_filter.mpr ⟨hd, by simp [hc]⟩)

/-! ### Generic lemmas about folds of saves -/

theorem lookupDate_foldl_fix {α} (step : SymbolData → α → SymbolData) (d : Nat) :
    ∀ (l : List α) (db : SymbolData),
      (∀ x ∈ l, ∀ db, lookupDate (step db x) d = lookupDate db d) →
      lookupDate (l.foldl step db) d = lookupDate db d := by
  intro l
  induction l with
  | nil => intro db _; rfl
  | cons x xs ih =>
    intro db h
    rw [List.foldl_cons, ih (step db x) (fun y hy => h y (List.mem_cons_of_mem x hy)),
      h x (List.mem_cons_self x xs)]

theorem lookupDate_foldl_write {α} [DecidableEq α] (step : SymbolData → α → SymbolData)
    (d : Nat) (r : DayRecord) (x₀ : α)
    (hx₀ : ∀ db, lookupDate (step db x₀) d = some r)
    (hothers : ∀ x, x ≠ x₀ → ∀ db, lookupDate (step db x) d = lookupDate db d) :
    ∀ (l : List α) (db : SymbolData), l.Nodup → x₀ ∈ l →
      lookupDate (l.foldl step db) d = some r := by
  intro l
  induction l with
  | nil => intro db _ hmem; cases hmem
  | cons x xs ih =>
    intro db hnd hmem
    rw [List.foldl_cons]
    rcases List.mem_cons.mp hmem with hx | hx
    · subst hx
      have hnotin : x₀ ∉ xs := (List.nodup_cons.mp hnd).1
      rw [lookupDate_foldl_fix step d xs (step db x₀)
        (fun y hy => hothers y (fun hyx => hnotin (hyx ▸ hy))), hx₀]
    · exact ih (step db x) (List.nodup_cons.mp hnd).2 hx

theorem lookupDate_foldl_wf {α} (step : SymbolData → α → SymbolData) (W : DayRecord → Prop)
    (h : ∀ db x d rec, lookupDate (step db x) d = some rec →
      lookupDate db d = some rec ∨ W rec) :
    ∀ (l : List α) (db : SymbolData) (d : Nat) (rec : DayRecord),
      lookupDate (l.foldl step db) d = some rec → lookupDate db d = some rec ∨ W rec := by
  intro l
  induction l with
  | nil => intro db d rec hl; exact Or.inl hl
  | cons x xs ih =>
    intro db d rec hl
    rw [List.foldl_cons] at hl
    rcases ih (step db x) d rec hl with h1 | h1
    · exact h db x d rec h1
    · exact Or.inr h1

theorem coveredBy_foldl_mono {α} (step : SymbolData → α → SymbolData) (rn : Bool)
    (s e : Nat) :
    ∀ (l : List α) (db : SymbolData) (d : Nat),
      (∀ x ∈ l, ∀ (db : SymbolData) (d2 : Nat),
        coveredBy rn s e db d2 = true → coveredBy rn s e (step db x) d2 = true) →
      coveredBy rn s e db d = true → coveredBy rn s e (l.foldl step db) d = true := by
  intro l
  induction l with
  | nil => intro db d _ hc; exact hc
  | cons x xs ih =>
    intro db d h hc
    rw [List.foldl_cons]
    exact ih (step db x) d (fun y hy => h y (List.mem_cons_of_mem x hy))
      (h x (List.mem_cons_self x xs) db d hc)

theorem coveredBy_foldl_write {α} (step : SymbolData → α → SymbolData) (rn : Bool)
    (s e d : Nat) (x₀ : α) :
    ∀ (l : List α) (db : SymbolData),
      (∀ x ∈ l, ∀ (db : SymbolData) (d2 : Nat),
        coveredBy rn s e db d2 = true → coveredBy rn s e (step db x) d2 = true) →
      (∀ db : SymbolData, coveredBy rn s e (step db x₀) d = true) →
      x₀ ∈ l → coveredBy rn s e (l.foldl step db) d = true := by
  intro l
  induction l with
  | nil => intro db _ _ hmem; cases hmem
  | cons x xs ih =>
    intro db hmono hx₀ hmem
    rw [List.foldl_cons]
    rcases List.mem_cons.mp hmem with hx | hx
    · subst hx
      exact coveredBy_foldl_mono step rn s e xs (step db x₀) d
        (fun y hy => hmono y (List.mem_cons_of_mem x₀ hy)) (hx₀ db)
    · exact ih (step db x) (fun y hy => hmono y (List.mem_cons_of_mem x hy)) hx₀ hx

/-! ### The weekend loop -/

theorem processWeekends_fst (l : List Nat) :
    ∀ (db : SymbolData) (c : Int),
      (processWeekends (db, c) l).1
        = l.foldl (fun db x => save_news db x (weekendRecord x)) db := by
  unfold processWeekends
  induction l with
  | nil => intro db c; rfl
  | cons x xs ih => intro db c; exact ih (save_news db x (weekendRecord x)) (c + 1)

theorem processWeekends_snd (l : List Nat) :
    ∀ (db : SymbolData) (c : Int), (processWeekends (db, c) l).2 = c + l.length := by
  unfold processWeekends
  induction l with
  | nil => intro db c; simp
  | cons x xs ih =>
    intro db c
    rw [List.foldl_cons]
    have := ih (save_news db x (weekendRecord x)) (c + 1)
    rw [this]
    simp
    omega

/-! ### Minimum and maximum of the missing weekdays -/

theorem foldl_min_le (d : Nat) (l : List Nat) : l.foldl min d ≤ d := by
  induction l generalizing d with
  | nil => exact Nat.le_refl d
  | cons x xs ih =>
    exact Nat.le_trans (ih (min d x)) (by omega)

theorem foldl_min_le_mem (l : List Nat) :
    ∀ (d x : Nat), x ∈ l → l.foldl min d ≤ x := by
  induction l with
  | nil => intro d x hx; cases hx
  | cons y ys ih =>
    intro d x hx
    rcases List.mem_cons.mp hx with h | h
    · subst h
      exact Nat.le_trans (foldl_min_le (min d x) ys) (by omega)
    · exact ih (min d y) x h

theorem foldl_min_mem (l : List Nat) :
    ∀ d : Nat, l.foldl min d = d ∨ l.foldl min d ∈ l := by
  induction l with
  | nil => intro d; exact Or.inl rfl
  | cons x xs ih =>
    intro d
    rw [List.foldl_cons]
    rcases ih (min d x) with h | h
    · rcases Nat.le_total d x with hle | hle
      · have hdx : min d x = d := by omega
        exact Or.inl (h.trans hdx)
      · have hdx : min d x = x := by omega
        exact Or.inr (List.mem_cons.mpr (Or.inl (h.trans hdx)))
    · exact Or.inr (List.mem_cons_of_mem x h)

theorem pyMin_mem {l : List Nat} (h : l ≠ []) : pyMin l ∈ l := by
  match l with
  | d :: ds =>
    show ds.foldl min d ∈ d :: ds
    rcases foldl_min_mem ds d with h1 | h1
    · rw [h1]; exact List.mem_cons_self d ds
    · exact List.mem_cons_of_mem d h1

theorem pyMin_le {l : List Nat} (x : Nat) (hx : x ∈ l) : pyMin l ≤ x := by
  match l with
  | d :: ds =>
    show ds.foldl min d ≤ x
    rcases List.mem_cons.mp hx with h | h
    · exact h ▸ foldl_min_le d ds
    · exact foldl_min_le_mem ds d x h

theorem foldl_max_ge (d : Nat) (l : List Nat) : d ≤ l.foldl max d := by
  induction l generalizing d with
  | nil => exact Nat.le_refl d
  | cons x xs ih =>
    exact Nat.le_trans (by omega : d ≤ max d x) (ih (max d x))

theorem foldl_max_ge_mem (l : List Nat) :
    ∀ (d x : Nat), x ∈ l → x ≤ l.foldl max d := by
  induction l with
  | nil => intro d x hx; cases hx
  | cons y ys ih =>
    intro d x hx
    rcases List.mem_cons.mp hx with h | h
    · subst h
      exact Nat.le_trans (by omega : x ≤ max d x) (foldl_max_ge (max d x) ys)
    · exact ih (max d y) x h

theorem foldl_max_mem (l : List Nat) :
    ∀ d : Nat, l.foldl max d = d ∨ l.foldl max d ∈ l := by
  induction l with
  | nil => intro d; exact Or.inl rfl
  | cons x xs ih =>
    intro d
    rw [List.foldl_cons]
    rcases ih (max d x) with h | h
    · rcases Nat.le_total d x with hle | hle
      · have hdx : max d x = x := by omega
        exact Or.inr (List.mem_cons.mpr (Or.inl (h.trans hdx)))
      · have hdx : max d x = d := by omega
        exact Or.inl (h.trans hdx)
    · exact Or.inr (List.mem_cons_of_mem x h)

theorem pyMax_mem {l : List Nat} (h : l ≠ []) : pyMax l ∈ l := by
  match l with
  | d :: ds =>
    show ds.foldl max d ∈ d :: ds
    rcases foldl_max_mem ds d with h1 | h1
    · rw [h1]; exact List.mem_cons_self d ds
    · exact List.mem_cons_of_mem d h1

theorem pyMax_ge {l : List Nat} (x : Nat) (hx : x ∈ l) : x ≤ pyMax l := by
  match l with
  | d :: ds =>
    show x ≤ ds.foldl max d
    rcases List.mem_cons.mp hx with h | h
    · exact h ▸ foldl_max_ge d ds
    · exact foldl_max_ge_mem ds d x h

/-! ### Facts about the per-date grouping of the remote response -/

theorem addToGroup_keys (d : Nat) (a : Article) :
    ∀ acc : List (Nat × List Article),
      (addToGroup acc d a).map Prod.fst
        = if d ∈ acc.map Prod.fst then acc.map Prod.fst
          else acc.map Prod.fst ++ [d] := by
  intro acc
  induction acc with
  | nil => simp [addToGroup]
  | cons p rest ih =>
    obtain ⟨k, l⟩ := p
    by_cases hk : k = d
    · subst hk
      simp [addToGroup]
    · rw [show addToGroup ((k, l) :: rest) d a = (k, l) :: addToGroup rest d a by
        simp [addToGroup, hk]]
      by_cases hmem : d ∈ rest.map Prod.fst
      · simp [hmem, ih, Ne.symm hk]
      · simp [hmem, ih, Ne.symm hk]

theorem addToGroup_vals_ne_nil (d : Nat) (a : Article) :
    ∀ acc : List (Nat × List Article),
      (∀ p ∈ acc, p.2 ≠ []) → ∀ p ∈ addToGroup acc d a, p.2 ≠ [] := by
  intro acc
  induction acc with
  | nil =>
    intro _ p hp
    simp only [addToGroup, List.mem_singleton] at hp
    subst hp; simp
  | cons q rest ih =>
    obtain ⟨k, l⟩ := q
    intro hacc p hp
    by_cases hk : k = d
    · subst hk
      simp only [addToGroup, if_pos rfl] at hp
      rcases List.mem_cons.mp hp with h | h
      · subst h; simp
      · exact hacc p (List.mem_cons_of_mem _ h)
    · simp only [addToGroup, if_neg hk] at hp
      rcases List.mem_cons.mp hp with h | h
      · subst h; exact hacc (k, l) (List.mem_cons_self _ _)
      · exact ih (fun q hq => hacc q (List.mem_cons_of_mem _ hq)) p h

theorem organize_keys_nodup (arts : List Article) :
    ((organize_articles_by_date arts).map Prod.fst).Nodup := by
  unfold organize_articles_by_date
  suffices h : ∀ acc : List (Nat × List Article), (acc.map Prod.fst).Nodup →
      ((arts.foldl
        (fun acc a =>
          match a.publishedAt with
          | none => acc
          | some d => addToGroup acc d a) acc).map Prod.fst).Nodup by
    exact h [] (by simp)
  induction arts with
  | nil => intro acc hacc; exact hacc
  | cons a rest ih =>
    intro acc hacc
    rw [List.foldl_cons]
    refine ih _ ?_
    match ha : a.publishedAt with
    | none => exact hacc
    | some d =>
      rw [addToGroup_keys d a acc]
      by_cases hmem : d ∈ acc.map Prod.fst
      · rw [if_pos hmem]; exact hacc
      · rw [if_neg hmem]
        refine List.Nodup.append hacc (List.nodup_singleton d) ?_
        intro x hx hx2
        rw [List.mem_singleton] at hx2
        subst hx2
        exact hmem hx

theorem groupedDates_nodup (arts : List Article) : (groupedDates arts).Nodup :=
  organize_keys_nodup arts

theorem organize_vals_ne_nil (arts : List Article) :
    ∀ p ∈ organize_articles_by_date arts, p.2 ≠ [] := by
  unfold organize_articles_by_date
  suffices h : ∀ acc : List (Nat × List Article), (∀ p ∈ acc, p.2 ≠ []) →
      ∀ p ∈ arts.foldl
        (fun acc a =>
          match a.publishedAt with
          | none => acc
          | some d => addToGroup acc d a) acc, p.2 ≠ [] by
    exact h [] (by simp)
  induction arts with
  | nil => intro acc hacc; exact hacc
  | cons a rest ih =>
    intro acc hacc
    rw [List.foldl_cons]
    refine ih _ ?_
    match ha : a.publishedAt with
    | none => exact hacc
    | some d => exact addToGroup_vals_ne_nil d a acc hacc

/-! ### Counting an intersection from either side -/

theorem length_filter_mem_comm {l₁ l₂ : List Nat} (h₁ : l₁.Nodup) (h₂ : l₂.Nodup) :
    (l₁.filter fun d => decide (d ∈ l₂)).length
      = (l₂.filter fun d => decide (d ∈ l₁)).length := by
  have key : ∀ (a b : List Nat), a.Nodup →
      (a.filter fun d => decide (d ∈ b)).length = (a.toFinset ∩ b.toFinset).card := by
    intro a b ha
    rw [← List.toFinset_card_of_nodup (ha.filter _), List.toFinset_filter]
    congr 1
    rw [← Finset.filter_mem_eq_inter]
    refine Finset.filter_congr fun x _ => ?_
    simp
  rw [key l₁ l₂ h₁, key l₂ l₁ h₂, Finset.inter_comm]

/-! ### Branch equations for `get_company_news` -/

theorem get_company_news_empty (cfg : Config) (gapExc : Bool) (db0 : SymbolData)
    (symbol : String) (today days : Nat) (response : List Article)
    (h : fetchMissing cfg gapExc db0 (today - days) today = []) :
    get_company_news cfg gapExc db0 symbol today days response =
      { articles := get_news_from_db cfg.max_articles_per_day db0 (today - days) today,
        db := db0, days_from_db := (numDays (today - days) today : Int),
        days_from_api := 0, days_without_news := 0, request := none } := by
  simp only [get_company_news]
  rw [h]
  simp

theorem get_company_news_weekendonly (cfg : Config) (gapExc : Bool) (db0 : SymbolData)
    (symbol : String) (today days : Nat) (response : List Article) (miss : List Nat)
    (hmiss : fetchMissing cfg gapExc db0 (today - days) today = miss)
    (hne : miss ≠ []) (hwm : weekdayMissingOf miss = []) :
    get_company_news cfg gapExc db0 symbol today days response =
      { articles := get_news_from_db cfg.max_articles_per_day
          (processWeekends (db0, 0) (weekendMissingOf miss)).1 (today - days) today,
        db := (processWeekends (db0, 0) (weekendMissingOf miss)).1,
        days_from_db := (numDays (today - days) today : Int) - miss.length,
        days_from_api := 0,
        days_without_news := (processWeekends (db0, 0) (weekendMissingOf miss)).2,
        request := none } := by
  simp only [get_company_news]
  rw [hmiss]
  rw [if_neg (by simp [hne]), hwm]
  simp

theorem get_company_news_main (cfg : Config) (gapExc : Bool) (db0 : SymbolData)
    (symbol : String) (today days : Nat) (response : List Article) (miss wm : List Nat)
    (hmiss : fetchMissing cfg gapExc db0 (today - days) today = miss)
    (hwm : weekdayMissingOf miss = wm) (hne : wm ≠ []) :
    get_company_news cfg gapExc db0 symbol today days response =
      { articles := get_news_from_db cfg.max_articles_per_day
          (fetchLeftoverDb
            (fetchGroupDb (processWeekends (db0, 0) (weekendMissingOf miss)).1 response)
            today wm response) (today - days) today,
        db := fetchLeftoverDb
          (fetchGroupDb (processWeekends (db0, 0) (weekendMissingOf miss)).1 response)
          today wm response,
        days_from_db := (numDays (today - days) today : Int) - miss.length,
        days_from_api := (apiDaysCount wm response : Int),
        days_without_news :=
          if (processWeekends (db0, 0) (weekendMissingOf miss)).2
              + ((wm.length : Int) - (apiDaysCount wm response : Int)) < 0 then 0
          else (processWeekends (db0, 0) (weekendMissingOf miss)).2
              + ((wm.length : Int) - (apiDaysCount wm response : Int)),
        request := some
          { q := buildQuery symbol cfg.news_api_query_suffix,
            from_param := pyMin wm, to_param := pyMax wm,
            language := cfg.news_api_language, sort_by := cfg.news_api_sort_by,
            page_size := cfg.news_api_page_size } } := by
  have hmne : miss ≠ [] := by
    intro hnil
    exact hne (by rw [← hwm, hnil]; rfl)
  simp only [get_company_news]
  rw [hmiss]
  rw [if_neg (by simp [hmne]), hwm, if_neg (by simp [hne])]

theorem get_company_news_articles_eq (cfg : Config) (gapExc : Bool) (db0 : SymbolData)
    (symbol : String) (today days : Nat) (response : List Article) :
    (get_company_news cfg gapExc db0 symbol today days response).articles
      = get_news_from_db cfg.max_articles_per_day
          (get_company_news cfg gapExc db0 symbol today days response).db
          (today - days) today := by
  simp only [get_company_news]
  split
  · rfl
  · split
    · rfl
    · rfl

/-! ### Structure of the reader's assembly -/

theorem foldl_append_eq_join {α β} (f : α → List β) (l : List α) :
    ∀ acc : List β, l.foldl (fun acc d => acc ++ f d) acc = acc ++ (l.map f).flatten := by
  induction l with
  | nil => intro acc; simp
  | cons x xs ih =>
    intro acc
    rw [List.foldl_cons, ih (acc ++ f x)]
    simp

theorem get_news_from_db_eq_join (cap : Option Int) (db : SymbolData) (s e : Nat) :
    get_news_from_db cap db s e = ((allDates s e).map (dayContribution cap db)).flatten := by
  unfold get_news_from_db
  rw [foldl_append_eq_join]
  simp

theorem dayContribution_length_le (n : Int) (hn : 0 < n) (db : SymbolData) (d : Nat) :
    (dayContribution (some n) db d).length ≤ n.toNat := by
  unfold dayContribution
  match lookupDate db d with
  | none => simp
  | some r =>
    by_cases hw : r.is_weekend
    · simp [hw]
    · simp only [hw, if_neg, dayArticles, if_pos hn, Bool.false_eq_true, if_false]
      exact Nat.le_trans (List.length_take_le n.toNat r.articles) (Nat.le_refl _)

theorem dayContribution_unlimited {db : SymbolData} {d : Nat} {r : DayRecord}
    (h : lookupDate db d = some r) (hw : r.is_weekend = false) :
    dayContribution none db d = r.articles := by
  unfold dayContribution
  rw [h]
  simp [dayArticles, hw]

theorem dayContribution_absent {db : SymbolData} {d : Nat} (cap : Option Int)
    (h : lookupDate db d = none) : dayContribution cap db d = [] := by
  unfold dayContribution
  rw [h]

theorem dayContribution_weekend {db : SymbolData} {d : Nat} {r : DayRecord}
    (cap : Option Int) (h : lookupDate db d = some r) (hw : r.is_weekend = true) :
    dayContribution cap db d = [] := by
  unfold dayContribution
  rw [h]
  simp [hw]

/-! ### Sample data used by the concrete witnesses -/

/-- A configuration with both refresh flags off, the repository's default
query parameters, and no per-day article cap. -/
def sampleConfig : Config :=
  { news_api_refresh_no_news := false, news_api_refresh_articles := false,
    news_api_language := "en", news_api_sort_by := "relevancy",
    news_api_page_size := 100, news_api_query_suffix := "",
    max_articles_per_day := none }

/-- A one-article response item published on day `d`. -/
def sampleArticle (d : Nat) : Article :=
  { title := "t", description := "d", url := "u", publishedAt := some d,
    sourceName := "s" }

/-- A stored weekday record for day 5 holding one article. -/
def sampleRecord : DayRecord :=
  { date := 5, articles := [sampleArticle 5], total_articles := 1,
    is_weekend := false, no_news := false }

/-- A one-entry stored table. -/
def sampleDb : SymbolData := [(some 5, sampleRecord)]

/-! ### Claim C1 -/

theorem validRecord_iff (rn : Bool) (r : DayRecord) :
    validRecord rn r = true ↔
      (r.articles ≠ [] ∨ r.is_weekend = true ∨ (r.no_news = true ∧ rn = false)) := by
  unfold validRecord
  cases rn <;> cases hw : r.is_weekend <;> cases hn : r.no_news <;>
    simp [List.isEmpty_iff]

/-- C1: with the refresh-all flag unset, a date `d` of `[startDate,
endDate]` is absent from `get_missing_dates` exactly when some stored entry
under the well-formed key for `d` has at least one article, or has
`is_weekend` true, or has `no_news` true while the refresh-no-news flag is
false; the result is sorted ascending; entries under malformed keys are
skipped; and with the refresh-all flag set every date of the range is
missing unconditionally. -/
theorem C1_get_missing_dates_characterisation (rn : Bool) (db : SymbolData) (s e : Nat) :
    (∀ d ∈ allDates s e,
      (d ∉ get_missing_dates rn db s e ↔
        ∃ en ∈ db, en.1 = some d ∧
          (en.2.articles ≠ [] ∨ en.2.is_weekend = true ∨
            (en.2.no_news = true ∧ rn = false))))
    ∧ (get_missing_dates rn db s e).Sorted (· < ·)
    ∧ (∀ r : DayRecord,
        get_missing_dates rn ((none, r) :: db) s e = get_missing_dates rn db s e)
    ∧ (∀ (rnn gapExc : Bool) (lang sb qs : String) (ps : Nat) (cap : Option Int)
        (db2 : SymbolData),
        fetchMissing ⟨rnn, true, lang, sb, ps, qs, cap⟩ gapExc db2 s e = allDates s e) := by
  refine ⟨?_, ?_, ?_, ?_⟩
  · intro d hd
    obtain ⟨h1, h2⟩ := mem_allDates.mp hd
    constructor
    · intro hnot
      have hcov : coveredBy rn s e db d = true := coveredBy_of_not_missing hd hnot
      obtain ⟨_, _, en, hmem, hk, hv⟩ := coveredBy_iff.mp hcov
      exact ⟨en, hmem, hk, (validRecord_iff rn en.2).mp hv⟩
    · rintro ⟨en, hmem, hk, hv⟩ hmem2
      have hcov : coveredBy rn s e db d = true :=
        coveredBy_iff.mpr ⟨h1, h2, en, hmem, hk, (validRecord_iff rn en.2).mpr hv⟩
      unfold get_missing_dates at hmem2
      have := (List.mem_filter.mp hmem2).2
      rw [hcov] at this
      simp at this
  · exact List.Pairwise.filter _ (allDates_sorted s e)
  · intro r
    unfold get_missing_dates
    refine List.filter_congr fun d _ => ?_
    unfold coveredBy
    rw [List.any_cons]
    simp
  · intro rnn gapExc lang sb qs ps cap db2
    rfl

/-- Witness for C1 at a concrete input: day 5 carries a one-article record
in `sampleDb`, so it is not missing in the range `[5, 6]`. -/
theorem C1_witness :
    5 ∉ get_missing_dates false sampleDb 5 6 ↔
      ∃ en ∈ sampleDb, en.1 = some 5 ∧
        (en.2.articles ≠ [] ∨ en.2.is_weekend = true ∨
          (en.2.no_news = true ∧ false = false)) :=
  (C1_get_missing_dates_characterisation false sampleDb 5 6).1 5 (by decide)

/-! ### Claim C7 -/

/-- C7: the reader's assembly walks the range ascending and concatenates
per-date contributions in date order (within a date, stored order); a
positive integer cap bounds every single date's contribution by the cap; a
null cap returns all of a non-weekend record's articles; absent records and
weekend records contribute nothing. -/
theorem C7_reader_assembly (cap : Option Int) (db : SymbolData) (s e : Nat) :
    get_news_from_db cap db s e
        = ((allDates s e).map (dayContribution cap db)).flatten
    ∧ (∀ n : Int, 0 < n → ∀ d : Nat, (dayContribution (some n) db d).length ≤ n.toNat)
    ∧ (∀ (d : Nat) (r : DayRecord), lookupDate db d = some r → r.is_weekend = false →
        dayContribution none db d = r.articles)
    ∧ (∀ d : Nat, lookupDate db d = none → dayContribution cap db d = [])
    ∧ (∀ (d : Nat) (r : DayRecord), lookupDate db d = some r → r.is_weekend = true →
        dayContribution cap db d = []) :=
  ⟨get_news_from_db_eq_join cap db s e,
   fun n hn d => dayContribution_length_le n hn db d,
   fun _ _ h hw => dayContribution_unlimited h hw,
   fun _ h => dayContribution_absent cap h,
   fun _ _ h hw => dayContribution_weekend cap h hw⟩

/-- Witness for C7 at concrete inputs: with a cap of 1 the sample record's
date contributes at most one article, and with no cap it contributes its
full article list. -/
theorem C7_witness :
    (dayContribution (some 1) sampleDb 5).length ≤ (1 : Int).toNat
    ∧ dayContribution none sampleDb 5 = sampleRecord.articles :=
  ⟨(C7_reader_assembly (some 1) sampleDb 5 5).2.1 1 (by decide) 5,
   (C7_reader_assembly none sampleDb 5 5).2.2.1 5 sampleRecord (by decide) (by decide)⟩

/-! ### Claim C4 -/

theorem fetchMissing_nodup (cfg : Config) (gapExc : Bool) (db : SymbolData) (s e : Nat) :
    (fetchMissing cfg gapExc db s e).Nodup := by
  unfold fetchMissing get_missing_dates_run get_missing_dates
  split
  · exact allDates_nodup s e
  · split
    · exact List.nodup_nil
    · exact (allDates_nodup s e).filter _

/-- C4: the missing dates split into the weekend part (weekday index 5 or
6) and the weekday part; every missing weekend date is stored as an
`is_weekend` record with empty articles in the state the remote query is
later issued against; and the `days_without_news` counter is bumped exactly
once per weekend date. -/
theorem C4_weekend_handling (cfg : Config) (gapExc : Bool) (db0 : SymbolData)
    (today days : Nat) :
    (∀ d : Nat,
      (d ∈ weekendMissingOf (fetchMissing cfg gapExc db0 (today - days) today) ↔
        d ∈ fetchMissing cfg gapExc db0 (today - days) today ∧ 5 ≤ weekday d)
      ∧ (d ∈ weekdayMissingOf (fetchMissing cfg gapExc db0 (today - days) today) ↔
        d ∈ fetchMissing cfg gapExc db0 (today - days) today ∧ weekday d < 5))
    ∧ (∀ d ∈ weekendMissingOf (fetchMissing cfg gapExc db0 (today - days) today),
        lookupDate
          (processWeekends (db0, 0)
            (weekendMissingOf (fetchMissing cfg gapExc db0 (today - days) today))).1 d
          = some (weekendRecord d))
    ∧ (∀ d : Nat, (weekendRecord d).is_weekend = true ∧ (weekendRecord d).articles = [])
    ∧ (∀ c : Int,
        (processWeekends (db0, c)
          (weekendMissingOf (fetchMissing cfg gapExc db0 (today - days) today))).2
        = c + (weekendMissingOf (fetchMissing cfg gapExc db0 (today - days) today)).length) := by
  refine ⟨?_, ?_, fun d => ⟨rfl, rfl⟩, ?_⟩
  · intro d
    constructor
    · unfold weekendMissingOf
      rw [List.mem_filter]
      constructor
      · rintro ⟨h1, h2⟩
        refine ⟨h1, ?_⟩
        simp only [Bool.not_eq_true', decide_eq_false_iff_not, Nat.not_lt] at h2
        exact h2
      · rintro ⟨h1, h2⟩
        exact ⟨h1, by simpa using Nat.not_lt.mpr h2⟩
    · unfold weekdayMissingOf
      rw [List.mem_filter]
      constructor
      · rintro ⟨h1, h2⟩
        exact ⟨h1, by simpa using h2⟩
      · rintro ⟨h1, h2⟩
        exact ⟨h1, by simpa using h2⟩
  · intro d hd
    rw [processWeekends_fst]
    refine lookupDate_foldl_write _ d (weekendRecord d) d
      (fun db => lookupDate_save_self db d (weekendRecord d))
      (fun x hx db => lookupDate_save_ne db (Ne.symm hx) (weekendRecord x))
      _ db0 ((fetchMissing_nodup cfg gapExc db0 _ _).filter _) hd
  · intro c
    rw [processWeekends_snd]

/-- Witness for C4: day 12 is a Saturday; with an empty store it is a
missing weekend date of the one-day range `[12, 12]` and the weekend loop
stores its weekend record. -/
theorem C4_witness :
    lookupDate
      (processWeekends (([] : SymbolData), 0)
        (weekendMissingOf (fetchMissing sampleConfig false [] (12 - 0) 12))).1 12
      = some (weekendRecord 12) :=
  (C4_weekend_handling sampleConfig false [] 12 0).2.1 12 (by decide)

/-! ### Claim C3 -/

/-- C3: every missing weekday that receives no grouped remote articles ends
up stored as the empty-article record, whose `no_news` key is present
exactly when the date is more than 7 days before today. -/
theorem C3_no_news_marker (cfg : Config) (gapExc : Bool) (db0 : SymbolData)
    (symbol : String) (today days : Nat) (response : List Article) (d : Nat)
    (hd : d ∈ weekdayMissingOf (fetchMissing cfg gapExc db0 (today - days) today))
    (hng : d ∉ groupedDates response) :
    lookupDate (get_company_news cfg gapExc db0 symbol today days response).db d
      = some (leftoverRecord today d)
    ∧ (leftoverRecord today d).articles = []
    ∧ ((leftoverRecord today d).no_news = true ↔ 7 < today - d) := by
  have hne : weekdayMissingOf (fetchMissing cfg gapExc db0 (today - days) today) ≠ [] := by
    intro h
    rw [h] at hd
    cases hd
  have heq := get_company_news_main cfg gapExc db0 symbol today days response
    (fetchMissing cfg gapExc db0 (today - days) today)
    (weekdayMissingOf (fetchMissing cfg gapExc db0 (today - days) today)) rfl rfl hne
  refine ⟨?_, rfl, by simp [leftoverRecord]⟩
  rw [heq]
  show lookupDate
    (fetchLeftoverDb
      (fetchGroupDb
        (processWeekends (db0, 0)
          (weekendMissingOf (fetchMissing cfg gapExc db0 (today - days) today))).1 response)
      today (weekdayMissingOf (fetchMissing cfg gapExc db0 (today - days) today)) response) d
    = some (leftoverRecord today d)
  unfold fetchLeftoverDb
  refine lookupDate_foldl_write _ d (leftoverRecord today d) d ?_ ?_ _ _
    ((fetchMissing_nodup cfg gapExc db0 _ _).filter _) hd
  · intro db
    rw [if_neg (by simpa using hng)]
    exact lookupDate_save_self db d (leftoverRecord today d)
  · intro x hx db
    by_cases hgx : x ∈ groupedDates response
    · rw [if_pos (by simpa using hgx)]
    · rw [if_neg (by simpa using hgx)]
      exact lookupDate_save_ne db (Ne.symm hx) (leftoverRecord today x)

/-- Witness for C3: with an empty store, an empty response, today = 22 and
a 9-day range, day 14 (a Monday, 8 days old) is stored with `no_news`
present. -/
theorem C3_witness :
    lookupDate (get_company_news sampleConfig false [] "X" 22 8 []).db 14
      = some (leftoverRecord 22 14)
    ∧ (leftoverRecord 22 14).articles = []
    ∧ ((leftoverRecord 22 14).no_news = true ↔ 7 < 22 - 14) :=
  C3_no_news_marker sampleConfig false [] "X" 22 8 [] 14 (by decide) (by decide)

/-! ### Claim C2 -/

/-- The search text in the spec sentence's own words ("the symbol stripped
of any leading index-marker character, OR-ed with the configured query
suffix when that suffix is non-empty"): only the leading `'^'` characters
are removed. Stated for comparison with `buildQuery`, which the code
computes. -/
def specSearchTextLeading (symbol suffix : String) : String :=
  let base := String.mk (symbol.toList.dropWhile fun c => c = '^')
  if suffix = "" then base else base ++ " OR " ++ suffix

/-- The search text as the amended claim words it: every index-marker
character removed (the code's `symbol.replace("^", "")` removes all
occurrences, not only leading ones), the suffix OR-ed on when non-empty,
and surrounding whitespace stripped. -/
def specSearchText (symbol suffix : String) : String :=
  let base := String.mk (symbol.toList.filter fun c => c ≠ '^')
  pyStrip (if suffix = "" then base else base ++ " OR " ++ suffix)

theorem buildQuery_eq_specSearchText (symbol suffix : String) :
    buildQuery symbol suffix = specSearchText symbol suffix := by
  unfold buildQuery specSearchText
  by_cases h : suffix = "" <;> simp [h, String.append_assoc]

/-- Counterexample for C2 as stated: for the symbol `"A^B"` (an interior
index-marker character) the issued request's search text is `"AB"` — the
code removes every `'^'` — while the symbol stripped of its leading
index-marker characters is `"A^B"` itself. -/
theorem C2_counterexample :
    ((get_company_news sampleConfig false [] "A^B" 14 0 []).request.map ApiRequest.q)
        = some "AB"
    ∧ specSearchTextLeading "A^B" "" = "A^B"
    ∧ ("AB" : String) ≠ "A^B" := by
  refine ⟨by decide, by decide, by decide⟩

/-- C2 (amended): whenever the missing weekdays are non-empty, exactly one
remote query is issued; its from/to dates are the minimum and the maximum
of the missing weekdays; its search text is the symbol stripped of every
index-marker character, OR-ed with the configured suffix when non-empty and
stripped of surrounding whitespace; its remaining parameters come from the
configuration; and no query is issued when no weekday is missing. -/
theorem C2_single_covering_query (cfg : Config) (gapExc : Bool) (db0 : SymbolData)
    (symbol : String) (today days : Nat) (response : List Article) :
    (weekdayMissingOf (fetchMissing cfg gapExc db0 (today - days) today) ≠ [] →
      (get_company_news cfg gapExc db0 symbol today days response).request
        = some
          { q := specSearchText symbol cfg.news_api_query_suffix,
            from_param :=
              pyMin (weekdayMissingOf (fetchMissing cfg gapExc db0 (today - days) today)),
            to_param :=
              pyMax (weekdayMissingOf (fetchMissing cfg gapExc db0 (today - days) today)),
            language := cfg.news_api_language, sort_by := cfg.news_api_sort_by,
            page_size := cfg.news_api_page_size }
      ∧ pyMin (weekdayMissingOf (fetchMissing cfg gapExc db0 (today - days) today))
          ∈ weekdayMissingOf (fetchMissing cfg gapExc db0 (today - days) today)
      ∧ (∀ x ∈ weekdayMissingOf (fetchMissing cfg gapExc db0 (today - days) today),
          pyMin (weekdayMissingOf (fetchMissing cfg gapExc db0 (today - days) today)) ≤ x)
      ∧ pyMax (weekdayMissingOf (fetchMissing cfg gapExc db0 (today - days) today))
          ∈ weekdayMissingOf (fetchMissing cfg gapExc db0 (today - days) today)
      ∧ (∀ x ∈ weekdayMissingOf (fetchMissing cfg gapExc db0 (today - days) today),
          x ≤ pyMax (weekdayMissingOf (fetchMissing cfg gapExc db0 (today - days) today))))
    ∧ (weekdayMissingOf (fetchMissing cfg gapExc db0 (today - days) today) = [] →
      (get_company_news cfg gapExc db0 symbol today days response).request = none) := by
  constructor
  · intro hne
    have heq := get_company_news_main cfg gapExc db0 symbol today days response
      (fetchMissing cfg gapExc db0 (today - days) today)
      (weekdayMissingOf (fetchMissing cfg gapExc db0 (today - days) today)) rfl rfl hne
    refine ⟨?_, pyMin_mem hne, fun x hx => pyMin_le x hx, pyMax_mem hne,
      fun x hx => pyMax_ge x hx⟩
    rw [heq, buildQuery_eq_specSearchText]
  · intro hwm
    by_cases hmiss : fetchMissing cfg gapExc db0 (today - days) today = []
    · rw [get_company_news_empty cfg gapExc db0 symbol today days response hmiss]
    · rw [get_company_news_weekendonly cfg gapExc db0 symbol today days response
        (fetchMissing cfg gapExc db0 (today - days) today) rfl hmiss hwm]

/-- Witness for the amended C2 at a concrete input: an empty store, the
range `[14, 14]` (a Monday) and symbol `"AAPL"`. -/
theorem C2_witness :
    (get_company_news sampleConfig false [] "AAPL" 14 0 []).request
        = some
          { q := specSearchText "AAPL" sampleConfig.news_api_query_suffix,
            from_param :=
              pyMin (weekdayMissingOf (fetchMissing sampleConfig false [] (14 - 0) 14)),
            to_param :=
              pyMax (weekdayMissingOf (fetchMissing sampleConfig false [] (14 - 0) 14)),
            language := sampleConfig.news_api_language,
            sort_by := sampleConfig.news_api_sort_by,
            page_size := sampleConfig.news_api_page_size }
      ∧ pyMin (weekdayMissingOf (fetchMissing sampleConfig false [] (14 - 0) 14))
          ∈ weekdayMissingOf (fetchMissing sampleConfig false [] (14 - 0) 14)
      ∧ (∀ x ∈ weekdayMissingOf (fetchMissing sampleConfig false [] (14 - 0) 14),
          pyMin (weekdayMissingOf (fetchMissing sampleConfig false [] (14 - 0) 14)) ≤ x)
      ∧ pyMax (weekdayMissingOf (fetchMissing sampleConfig false [] (14 - 0) 14))
          ∈ weekdayMissingOf (fetchMissing sampleConfig false [] (14 - 0) 14)
      ∧ (∀ x ∈ weekdayMissingOf (fetchMissing sampleConfig false [] (14 - 0) 14),
          x ≤ pyMax (weekdayMissingOf (fetchMissing sampleConfig false [] (14 - 0) 14))) :=
  (C2_single_covering_query sampleConfig false [] "AAPL" 14 0 []).1 (by decide)

/-! ### Claim C5 -/

/-- C5: after any fetch call, `days_from_db` is the range size minus the
number of missing dates, `days_from_api` is the number of missing weekdays
that appear among the grouped result dates (counted from either side of the
intersection), and `days_without_news` is the number of missing weekend
dates plus the missing weekdays that got no articles, floored at 0; in the
spec's 10-day scenario (2 weekend days, empty cache, articles on 3 of the 8
weekdays) the counters are 0, 3 and 7 and the assembled list holds exactly
the 3 populated weekdays' articles. -/
theorem C5_counters (cfg : Config) (gapExc : Bool) (db0 : SymbolData)
    (symbol : String) (today days : Nat) (response : List Article) :
    ((get_company_news cfg gapExc db0 symbol today days response).days_from_db
        = (numDays (today - days) today : Int)
          - (fetchMissing cfg gapExc db0 (today - days) today).length)
    ∧ ((get_company_news cfg gapExc db0 symbol today days response).days_from_api
        = (apiDaysCount (weekdayMissingOf (fetchMissing cfg gapExc db0 (today - days) today))
            response : Int))
    ∧ ((get_company_news cfg gapExc db0 symbol today days response).days_from_api
        = (((weekdayMissingOf (fetchMissing cfg gapExc db0 (today - days) today)).filter
            fun d => decide (d ∈ groupedDates response)).length : Int))
    ∧ ((get_company_news cfg gapExc db0 symbol today days response).days_without_news
        = max 0
          (((weekendMissingOf (fetchMissing cfg gapExc db0 (today - days) today)).length : Int)
            + (((weekdayMissingOf (fetchMissing cfg gapExc db0 (today - days) today)).length : Int)
              - (get_company_news cfg gapExc db0 symbol today days response).days_from_api)))
    ∧ ((get_company_news sampleConfig false [] "X" 18 9
          [sampleArticle 9, sampleArticle 10, sampleArticle 11]).days_from_db = 0
      ∧ (get_company_news sampleConfig false [] "X" 18 9
          [sampleArticle 9, sampleArticle 10, sampleArticle 11]).days_from_api = 3
      ∧ (get_company_news sampleConfig false [] "X" 18 9
          [sampleArticle 9, sampleArticle 10, sampleArticle 11]).days_without_news = 7
      ∧ (get_company_news sampleConfig false [] "X" 18 9
          [sampleArticle 9, sampleArticle 10, sampleArticle 11]).articles
          = [sampleArticle 9, sampleArticle 10, sampleArticle 11]) := by
  have hcomm : (apiDaysCount (weekdayMissingOf (fetchMissing cfg gapExc db0
      (today - days) today)) response : Int)
      = (((weekdayMissingOf (fetchMissing cfg gapExc db0 (today - days) today)).filter
          fun d => decide (d ∈ groupedDates response)).length : Int) := by
    unfold apiDaysCount
    exact_mod_cast length_filter_mem_comm (groupedDates_nodup response)
      ((fetchMissing_nodup cfg gapExc db0 _ _).filter _)
  refine ⟨?_, ?_, ?_, ?_, by decide, by decide, by decide, by decide⟩
  all_goals
    by_cases hmiss : fetchMissing cfg gapExc db0 (today - days) today = []
  · rw [get_company_news_empty cfg gapExc db0 symbol today days response hmiss, hmiss]
    simp
  case neg =>
    by_cases hwm :
        weekdayMissingOf (fetchMissing cfg gapExc db0 (today - days) today) = []
    · rw [get_company_news_weekendonly cfg gapExc db0 symbol today days response
        (fetchMissing cfg gapExc db0 (today - days) today) rfl hmiss hwm]
    · rw [get_company_news_main cfg gapExc db0 symbol today days response
        (fetchMissing cfg gapExc db0 (today - days) today)
        (weekdayMissingOf (fetchMissing cfg gapExc db0 (today - days) today)) rfl rfl hwm]
  · rw [get_company_news_empty cfg gapExc db0 symbol today days response hmiss, hmiss]
    simp [apiDaysCount, weekdayMissingOf]
  case neg =>
    by_cases hwm :
        weekdayMissingOf (fetchMissing cfg gapExc db0 (today - days) today) = []
    · rw [get_company_news_weekendonly cfg gapExc db0 symbol today days response
        (fetchMissing cfg gapExc db0 (today - days) today) rfl hmiss hwm, hwm]
      simp [apiDaysCount]
    · rw [get_company_news_main cfg gapExc db0 symbol today days response
        (fetchMissing cfg gapExc db0 (today - days) today)
        (weekdayMissingOf (fetchMissing cfg gapExc db0 (today - days) today)) rfl rfl hwm]
  · rw [← hcomm]
    rw [get_company_news_empty cfg gapExc db0 symbol today days response hmiss, hmiss]
    simp [apiDaysCount, weekdayMissingOf]
  case neg =>
    rw [← hcomm]
    by_cases hwm :
        weekdayMissingOf (fetchMissing cfg gapExc db0 (today - days) today) = []
    · rw [get_company_news_weekendonly cfg gapExc db0 symbol today days response
        (fetchMissing cfg gapExc db0 (today - days) today) rfl hmiss hwm, hwm]
      simp [apiDaysCount]
    · rw [get_company_news_main cfg gapExc db0 symbol today days response
        (fetchMissing cfg gapExc db0 (today - days) today)
        (weekdayMissingOf (fetchMissing cfg gapExc db0 (today - days) today)) rfl rfl hwm]
  · rw [get_company_news_empty cfg gapExc db0 symbol today days response hmiss, hmiss]
    simp [apiDaysCount, weekdayMissingOf, weekendMissingOf]
  case neg =>
    by_cases hwm :
        weekdayMissingOf (fetchMissing cfg gapExc db0 (today - days) today) = []
    · rw [get_company_news_weekendonly cfg gapExc db0 symbol today days response
        (fetchMissing cfg gapExc db0 (today - days) today) rfl hmiss hwm, hwm]
      rw [processWeekends_snd]
      simp [apiDaysCount]
    · rw [get_company_news_main cfg gapExc db0 symbol today days response
        (fetchMissing cfg gapExc db0 (today - days) today)
        (weekdayMissingOf (fetchMissing cfg gapExc db0 (today - days) today)) rfl rfl hwm]
      dsimp only
      rw [processWeekends_snd]
      split <;> omega

/-! ### Claim C8 -/

/-- C8: any exception raised during the whole fetch is caught and the call
returns the empty sequence; a successful fetch that finds no news returns
the same empty sequence, so the two outcomes are indistinguishable at the
return value. The concrete successful call covers an empty store, one
missing weekday and an empty remote response. -/
theorem C8_failure_collapse :
    (∀ (cfg : Config) (gapExc : Bool) (db0 : SymbolData) (symbol : String)
        (today days : Nat) (response : List Article),
      get_company_news_run true cfg gapExc db0 symbol today days response = [])
    ∧ get_company_news_run false sampleConfig false [] "X" 14 0 [] = [] := by
  constructor
  · intro cfg gapExc db0 symbol today days response
    rfl
  · decide

/-! ### Claim C9 -/

/-- The write-time invariant of claim C9. -/
def recordWF (r : DayRecord) : Prop :=
  r.total_articles = r.articles.length ∧ (r.is_weekend = true → r.articles = [])

theorem recordWF_weekend (d : Nat) : recordWF (weekendRecord d) :=
  ⟨rfl, fun _ => rfl⟩

theorem recordWF_group (p : Nat × List Article) : recordWF (groupRecord p) :=
  ⟨rfl, fun h => by simp [groupRecord] at h⟩

theorem recordWF_leftover (today d : Nat) : recordWF (leftoverRecord today d) :=
  ⟨rfl, fun _ => rfl⟩

/-- C9: every record the orchestrator writes (weekend records, grouped
remote records, empty no-result records) has `total_articles` equal to the
length of its article list and an empty article list whenever `is_weekend`
is true: any record found in the store after a fetch either was already
there before the call or satisfies the invariant. -/
theorem C9_written_records_wf (cfg : Config) (gapExc : Bool) (db0 : SymbolData)
    (symbol : String) (today days : Nat) (response : List Article) (d : Nat)
    (rec : DayRecord)
    (h : lookupDate (get_company_news cfg gapExc db0 symbol today days response).db d
      = some rec) :
    lookupDate db0 d = some rec ∨ recordWF rec := by
  by_cases hmiss : fetchMissing cfg gapExc db0 (today - days) today = []
  · rw [get_company_news_empty cfg gapExc db0 symbol today days response hmiss] at h
    exact Or.inl h
  · have hweekend : ∀ (db : SymbolData),
        lookupDate (processWeekends (db, 0)
          (weekendMissingOf (fetchMissing cfg gapExc db0 (today - days) today))).1 d
          = some rec →
        lookupDate db d = some rec ∨ recordWF rec := by
      intro db hl
      rw [processWeekends_fst] at hl
      refine lookupDate_foldl_wf _ recordWF ?_ _ db d rec hl
      intro db2 x d2 rec2 hx
      rcases lookupDate_save_cases hx with h1 | h1
      · exact Or.inl h1
      · exact Or.inr (h1 ▸ recordWF_weekend x)
    by_cases hwm : weekdayMissingOf (fetchMissing cfg gapExc db0 (today - days) today) = []
    · rw [get_company_news_weekendonly cfg gapExc db0 symbol today days response
        (fetchMissing cfg gapExc db0 (today - days) today) rfl hmiss hwm] at h
      exact hweekend db0 h
    · rw [get_company_news_main cfg gapExc db0 symbol today days response
        (fetchMissing cfg gapExc db0 (today - days) today)
        (weekdayMissingOf (fetchMissing cfg gapExc db0 (today - days) today))
        rfl rfl hwm] at h
      have hleft : lookupDate
          (fetchGroupDb (processWeekends (db0, 0)
            (weekendMissingOf (fetchMissing cfg gapExc db0 (today - days) today))).1
            response) d = some rec ∨ recordWF rec := by
        unfold fetchLeftoverDb at h
        refine lookupDate_foldl_wf _ recordWF ?_ _ _ d rec h
        intro db2 x d2 rec2 hx
        by_cases hgx : x ∈ groupedDates response
        · rw [if_pos (by simpa using hgx)] at hx
          exact Or.inl hx
        · rw [if_neg (by simpa using hgx)] at hx
          rcases lookupDate_save_cases hx with h1 | h1
          · exact Or.inl h1
          · exact Or.inr (h1 ▸ recordWF_leftover today x)
      rcases hleft with h1 | h1
      · have hgroup : lookupDate (processWeekends (db0, 0)
            (weekendMissingOf (fetchMissing cfg gapExc db0 (today - days) today))).1 d
            = some rec ∨ recordWF rec := by
          unfold fetchGroupDb at h1
          refine lookupDate_foldl_wf _ recordWF ?_ _ _ d rec h1
          intro db2 p d2 rec2 hp
          rcases lookupDate_save_cases hp with h2 | h2
          · exact Or.inl h2
          · exact Or.inr (h2 ▸ recordWF_group p)
        rcases hgroup with h2 | h2
        · exact hweekend db0 h2
        · exact Or.inr h2
      · exact Or.inr h1

/-- Witness for C9: after fetching over the one-day weekend range
`[12, 12]` from an empty store, the stored record for day 12 satisfies the
invariant (it was not present before the call). -/
theorem C9_witness : recordWF (weekendRecord 12) :=
  (C9_written_records_wf sampleConfig false [] "X" 12 0 [] 12 (weekendRecord 12)
    (by decide)).resolve_left (by decide)

/-! ### Claim C10 -/

/-- C10: an exception inside the missing-dates computation makes it return
the empty list, so the caller sees no missing date: it performs no remote
query, leaves the store untouched, reports `days_from_db` equal to the full
range size and serves the answer from the store — the opposite degradation
of a storage load failure, which yields the empty table and makes every
date of the range missing. -/
theorem C10_gap_exception_degradation :
    (∀ (rn : Bool) (db : SymbolData) (s e : Nat),
      get_missing_dates_run true rn db s e = [])
    ∧ (∀ (rnn : Bool) (lang sb qs : String) (ps : Nat) (cap : Option Int)
        (db0 : SymbolData) (symbol : String) (today days : Nat) (response : List Article),
        get_company_news ⟨rnn, false, lang, sb, ps, qs, cap⟩ true db0 symbol today days
            response
          = { articles := get_news_from_db cap db0 (today - days) today, db := db0,
              days_from_db := (numDays (today - days) today : Int),
              days_from_api := 0, days_without_news := 0, request := none })
    ∧ (∀ (rn : Bool) (st : Option SymbolData) (s e : Nat),
        get_missing_dates rn (load_symbol_data_run true st) s e = allDates s e) := by
  refine ⟨fun rn db s e => rfl, ?_, ?_⟩
  · intro rnn lang sb qs ps cap db0 symbol today days response
    exact get_company_news_empty _ true db0 symbol today days response rfl
  · intro rn st s e
    show get_missing_dates rn [] s e = allDates s e
    unfold get_missing_dates coveredBy
    simp

/-! ### Claim C6 -/

theorem mem_weekdayMissingOf {l : List Nat} {d : Nat} :
    d ∈ weekdayMissingOf l ↔ d ∈ l ∧ weekday d < 5 := by
  unfold weekdayMissingOf
  rw [List.mem_filter]
  simp

theorem mem_weekendMissingOf {l : List Nat} {d : Nat} :
    d ∈ weekendMissingOf l ↔ d ∈ l ∧ ¬weekday d < 5 := by
  unfold weekendMissingOf
  rw [List.mem_filter]
  simp

theorem fetchMissing_flags_false {cfg : Config} (db : SymbolData) (s e : Nat)
    (hra : cfg.news_api_refresh_articles = false) :
    fetchMissing cfg false db s e
      = get_missing_dates cfg.news_api_refresh_no_news db s e := by
  unfold fetchMissing get_missing_dates_run
  rw [hra]
  simp

theorem get_missing_dates_eq_nil {rn : Bool} {db : SymbolData} {s e : Nat}
    (h : ∀ d ∈ allDates s e, coveredBy rn s e db d = true) :
    get_missing_dates rn db s e = [] := by
  unfold get_missing_dates
  rw [List.filter_eq_nil_iff]
  intro d hd
  simp [h d hd]

theorem validRecord_weekend (rn : Bool) (d : Nat) :
    validRecord rn (weekendRecord d) = true := rfl

theorem validRecord_group (rn : Bool) {p : Nat × List Article} (hp : p.2 ≠ []) :
    validRecord rn (groupRecord p) = true := by
  have h : p.2.isEmpty = false := by
    simp [List.isEmpty_iff, hp]
  unfold validRecord groupRecord
  simp [h]

theorem validRecord_leftover {today d : Nat} (h7 : 7 < today - d) :
    validRecord false (leftoverRecord today d) = true := by
  unfold validRecord leftoverRecord
  simp [h7]

/-- Counterexample for C6 as stated: flags off, empty store, empty remote
response, one-day range `[14, 14]` (a Monday). The first call stores an
empty record without `no_news` (the day is 0 days old), so the second call
still counts it missing: `days_from_db` is 0, not the full range size 1
(the two calls' outputs are both empty, but the claim's `daysFromCache`
conjunct fails). -/
theorem C6_counterexample :
    (get_company_news sampleConfig false
        (get_company_news sampleConfig false [] "X" 14 0 []).db "X" 14 0 []).days_from_db
      = 0
    ∧ (numDays (14 - 0) 14 : Int) = 1
    ∧ (0 : Int) ≠ 1 :=
  ⟨by decide, by decide, by decide⟩

/-- C6 (amended): with both refresh flags unset and every missing weekday
that the remote response leaves without articles more than 7 days old, a
second fetch with the same store, configuration and remote data returns an
identical output sequence and reports `days_from_db` equal to the full
range size. (Without the age proviso, a weekday of the last 7 days that
ends up empty is deliberately left unmarked so the next run re-checks it,
and the second call's `days_from_db` falls short — see the
counterexample.) -/
theorem C6_idempotence_amended (cfg : Config) (db0 : SymbolData) (symbol : String)
    (today days : Nat) (response : List Article)
    (hra : cfg.news_api_refresh_articles = false)
    (hrn : cfg.news_api_refresh_no_news = false)
    (hold : ∀ d ∈ weekdayMissingOf (fetchMissing cfg false db0 (today - days) today),
      d ∉ groupedDates response → 7 < today - d) :
    (get_company_news cfg false
        (get_company_news cfg false db0 symbol today days response).db
        symbol today days response).articles
      = (get_company_news cfg false db0 symbol today days response).articles
    ∧ (get_company_news cfg false
        (get_company_news cfg false db0 symbol today days response).db
        symbol today days response).days_from_db
      = (numDays (today - days) today : Int) := by
  have hcov : ∀ d ∈ allDates (today - days) today,
      coveredBy false (today - days) today
        (get_company_news cfg false db0 symbol today days response).db d = true := by
    intro d hd
    obtain ⟨hs, he⟩ := mem_allDates.mp hd
    by_cases hmiss : fetchMissing cfg false db0 (today - days) today = []
    · rw [get_company_news_empty cfg false db0 symbol today days response hmiss]
      show coveredBy false (today - days) today db0 d = true
      have hnm : d ∉ get_missing_dates cfg.news_api_refresh_no_news db0
          (today - days) today := by
        rw [← fetchMissing_flags_false db0 (today - days) today hra, hmiss]
        exact List.not_mem_nil d
      rw [hrn] at hnm
      exact coveredBy_of_not_missing hd hnm
    · have hmono_w : ∀ x ∈ weekendMissingOf (fetchMissing cfg false db0
          (today - days) today), ∀ (db : SymbolData) (d2 : Nat),
          coveredBy false (today - days) today db d2 = true →
          coveredBy false (today - days) today
            (save_news db x (weekendRecord x)) d2 = true :=
        fun x _ db d2 hc => coveredBy_save_of_covered (validRecord_weekend false x) hc
      by_cases hwm : weekdayMissingOf (fetchMissing cfg false db0
          (today - days) today) = []
      · rw [get_company_news_weekendonly cfg false db0 symbol today days response
          (fetchMissing cfg false db0 (today - days) today) rfl hmiss hwm]
        show coveredBy false (today - days) today
          (processWeekends (db0, 0) (weekendMissingOf
            (fetchMissing cfg false db0 (today - days) today))).1 d = true
        rw [processWeekends_fst]
        by_cases hdm : d ∈ fetchMissing cfg false db0 (today - days) today
        · have hdwe : d ∈ weekendMissingOf (fetchMissing cfg false db0
              (today - days) today) := by
            rcases Nat.lt_or_ge (weekday d) 5 with h5 | h5
            · exact absurd (mem_weekdayMissingOf.mpr ⟨hdm, h5⟩)
                (by rw [hwm]; exact List.not_mem_nil d)
            · exact mem_weekendMissingOf.mpr ⟨hdm, Nat.not_lt.mpr h5⟩
          exact coveredBy_foldl_write _ false (today - days) today d d _ db0 hmono_w
            (fun db => coveredBy_save_self db hs he (validRecord_weekend false d)) hdwe
        · have hnm : d ∉ get_missing_dates cfg.news_api_refresh_no_news db0
              (today - days) today := by
            rw [← fetchMissing_flags_false db0 (today - days) today hra]
            exact hdm
          rw [hrn] at hnm
          exact coveredBy_foldl_mono _ false (today - days) today _ db0 d hmono_w
            (coveredBy_of_not_missing hd hnm)
      · rw [get_company_news_main cfg false db0 symbol today days response
          (fetchMissing cfg false db0 (today - days) today)
          (weekdayMissingOf (fetchMissing cfg false db0 (today - days) today))
          rfl rfl hwm]
        show coveredBy false (today - days) today
          (fetchLeftoverDb
            (fetchGroupDb (processWeekends (db0, 0) (weekendMissingOf
              (fetchMissing cfg false db0 (today - days) today))).1 response)
            today (weekdayMissingOf (fetchMissing cfg false db0 (today - days) today))
            response) d = true
        unfold fetchLeftoverDb fetchGroupDb
        rw [processWeekends_fst]
        have hmono_g : ∀ p ∈ organize_articles_by_date response,
            ∀ (db : SymbolData) (d2 : Nat),
            coveredBy false (today - days) today db d2 = true →
            coveredBy false (today - days) today
              (save_news db p.1 (groupRecord p)) d2 = true :=
          fun p hp db d2 hc =>
            coveredBy_save_of_covered
              (validRecord_group false (organize_vals_ne_nil response p hp)) hc
        have hmono_l : ∀ x ∈ weekdayMissingOf (fetchMissing cfg false db0
            (today - days) today), ∀ (db : SymbolData) (d2 : Nat),
            coveredBy false (today - days) today db d2 = true →
            coveredBy false (today - days) today
              (if decide (x ∈ groupedDates response) then db
                else save_news db x (leftoverRecord today x)) d2 = true := by
          intro x hx db d2 hc
          by_cases hgx : x ∈ groupedDates response
          · rw [if_pos (by simpa using hgx)]
            exact hc
          · rw [if_neg (by simpa using hgx)]
            exact coveredBy_save_of_covered (validRecord_leftover (hold x hx hgx)) hc
        by_cases hdm : d ∈ fetchMissing cfg false db0 (today - days) today
        · by_cases h5 : weekday d < 5
          · have hdwm : d ∈ weekdayMissingOf (fetchMissing cfg false db0
                (today - days) today) := mem_weekdayMissingOf.mpr ⟨hdm, h5⟩
            by_cases hdg : d ∈ groupedDates response
            · obtain ⟨p, hp, hp1⟩ := List.mem_map.mp hdg
              have hcovg := coveredBy_foldl_write
                (fun db (p : Nat × List Article) => save_news db p.1 (groupRecord p))
                false (today - days) today d p (organize_articles_by_date response)
                ((weekendMissingOf (fetchMissing cfg false db0 (today - days) today)).foldl
                  (fun db x => save_news db x (weekendRecord x)) db0)
                hmono_g
                (fun db => by
                  show coveredBy false (today - days) today
                    (save_news db p.1 (groupRecord p)) d = true
                  rw [hp1]
                  exact coveredBy_save_self db hs he
                    (validRecord_group false (organize_vals_ne_nil response p hp)))
                hp
              exact coveredBy_foldl_mono _ false (today - days) today _ _ d hmono_l hcovg
            · exact coveredBy_foldl_write _ false (today - days) today d d _ _ hmono_l
                (fun db => by
                  rw [if_neg (by simpa using hdg)]
                  exact coveredBy_save_self db hs he
                    (validRecord_leftover (hold d hdwm hdg)))
                hdwm
          · have hdwe : d ∈ weekendMissingOf (fetchMissing cfg false db0
                (today - days) today) := mem_weekendMissingOf.mpr ⟨hdm, h5⟩
            have hcovw := coveredBy_foldl_write
              (fun db x => save_news db x (weekendRecord x)) false (today - days) today
              d d (weekendMissingOf (fetchMissing cfg false db0 (today - days) today))
              db0 hmono_w
              (fun db => coveredBy_save_self db hs he (validRecord_weekend false d)) hdwe
            exact coveredBy_foldl_mono _ false (today - days) today _ _ d hmono_l
              (coveredBy_foldl_mono _ false (today - days) today _ _ d hmono_g hcovw)
        · have hnm : d ∉ get_missing_dates cfg.news_api_refresh_no_news db0
              (today - days) today := by
            rw [← fetchMissing_flags_false db0 (today - days) today hra]
            exact hdm
          rw [hrn] at hnm
          exact coveredBy_foldl_mono _ false (today - days) today _ _ d hmono_l
            (coveredBy_foldl_mono _ false (today - days) today _ _ d hmono_g
              (coveredBy_foldl_mono _ false (today - days) today _ db0 d hmono_w
                (coveredBy_of_not_missing hd hnm)))
  have hmiss2 : fetchMissing cfg false
      (get_company_news cfg false db0 symbol today days response).db
      (today - days) today = [] := by
    rw [fetchMissing_flags_false _ _ _ hra, hrn]
    exact get_missing_dates_eq_nil hcov
  have h2 := get_company_news_empty cfg false
    (get_company_news cfg false db0 symbol today days response).db
    symbol today days response hmiss2
  constructor
  · rw [h2]
    exact (get_company_news_articles_eq cfg false db0 symbol today days response).symm
  · rw [h2]

/-- Witness for the amended C6: a one-day Sunday range `[20, 20]` with an
empty store — the first call stores a weekend record, the second call
serves everything from the store and reports the full range size. -/
theorem C6_witness :
    (get_company_news sampleConfig false
        (get_company_news sampleConfig false [] "X" 20 0 []).db "X" 20 0 []).articles
      = (get_company_news sampleConfig false [] "X" 20 0 []).articles
    ∧ (get_company_news sampleConfig false
        (get_company_news sampleConfig false [] "X" 20 0 []).db "X" 20 0 []).days_from_db
      = (numDays (20 - 0) 20 : Int) :=
  C6_idempotence_amended sampleConfig [] "X" 20 0 [] rfl rfl (by decide)
